import Mathlib

/-!
Verification of the keybindings editor model
(`src/vs/workbench/parts/preferences/common/keybindingsEditorModel.ts`).

The development shallowly embeds the matching and ranking engine of the
keybindings editor: match spans, the per-field matcher, the structured
key-combination matcher, the collection model's `fetch` (search), the
rebuild-time comparator and the synthetic-entry construction of `resolve`.

External collaborators (the string-matching primitives of
`vs/base/common/filters`, locale-aware comparison, the platform modifier
label tables, command registries) are not part of the given source tree;
they are modelled from the specification, which treats them as given
primitives, and are marked `Modelled from the spec:` below.
-/

/-- A half-open character range within a field's text (`IMatch` of
`vs/base/common/filters`). The source's `end` field is called `stop`
here because `end` is a Lean keyword. -/
@[ext]
structure IMatch where
  start : Nat
  stop : Nat
deriving DecidableEq, Repr

/-- A filter takes a query word and a text to match against and returns
the matched spans, or `none` for a failed match (`IFilter`). A JavaScript
`null` result is `none`; note that an empty span list (`some []`) is a
successful match, mirroring the truthiness of `[]` in JavaScript. -/
def IFilter : Type := String → String → Option (List IMatch)

/-- JavaScript `String.prototype.trim`: strip whitespace from both ends. -/
def jsTrim (s : String) : String :=
  (((s.toList.dropWhile Char.isWhitespace).reverse.dropWhile Char.isWhitespace).reverse).asString

/-- JavaScript `String.prototype.split` with a one-character separator:
`"a+b".split('+') = ["a","b"]`, `"".split('+') = [""]`. -/
def jsSplitAux (sep : Char) : List Char → List Char → List String
  | [], cur => [cur.reverse.asString]
  | c :: rest, cur =>
    if c == sep then cur.reverse.asString :: jsSplitAux sep rest []
    else jsSplitAux sep rest (c :: cur)

/-- JavaScript `String.prototype.split` with a one-character separator. -/
def jsSplit (s : String) (sep : Char) : List String := jsSplitAux sep s.toList []

namespace Filters

/-- Case-insensitive view of a string as a list of lowered characters. -/
def lowerL (s : String) : List Char := s.toList.map Char.toLower

/-- Case-insensitive character comparison. -/
def lcEq (a b : Char) : Bool := a.toLower == b.toLower

/-- `strings.compareIgnoreCase(a, b) === 0`. -/
def equalsIgnoreCase (a b : String) : Bool := lowerL a == lowerL b

/-- Modelled from the spec: the word separators used by the word-boundary
matcher (whitespace and punctuation). -/
def isWordSeparator (c : Char) : Bool :=
  [' ', '\t', '\n', '.', ',', ';', ':', '-', '/', '?', '!'].contains c

/-- Word-boundary anchor positions of a text: index 0 and every index
whose preceding character is a word separator. -/
def wordAnchors (target : List Char) : List Nat :=
  (List.range target.length).filter fun i =>
    i == 0 ||
      (match target.get? (i - 1) with
       | some c => isWordSeparator c
       | none => false)

/-- Camel-case anchor positions of a text: index 0, every upper-case or
digit character, and every index whose preceding character is not
alphanumeric. -/
def camelAnchors (target : List Char) : List Nat :=
  (List.range target.length).filter fun i =>
    i == 0 ||
      (match target.get? i with
       | some c => c.isUpper || c.isDigit
       | none => false) ||
      (match target.get? (i - 1) with
       | some c => !c.isAlphanum
       | none => false)

/-- `join` of `vs/base/common/filters`: prepend a one-character span,
merging it with the following span when they are adjacent. -/
def matchJoin (head : IMatch) (tail : List IMatch) : List IMatch :=
  match tail with
  | [] => [head]
  | t :: rest => if head.stop == t.start then ⟨head.start, t.stop⟩ :: rest else head :: t :: rest

/-- Modelled from the spec: the shared recursive core of the word-boundary
and camel-case matchers. Matches the characters of `word` inside `target`
starting at index `j`, case-insensitively; each character extends the
current run contiguously, or (when `contiguous` is false) restarts at a
later anchor position. The fuel is the length of `word`; every recursive
call consumes one character of `word`. -/
def matchWordAtF (anch : List Nat) (contiguous : Bool) (target : List Char) :
    Nat → List Char → Nat → Option (List IMatch)
  | _, [], _ => some []
  | 0, _ :: _, _ => none
  | fuel + 1, c :: rest, j =>
    if h : j < target.length then
      if lcEq c (target.get ⟨j, h⟩) then
        match matchWordAtF anch contiguous target fuel rest (j + 1) with
        | some ms => some (matchJoin ⟨j, j + 1⟩ ms)
        | none =>
          if contiguous then none
          else
            match List.findSome?
                (fun k => matchWordAtF anch contiguous target fuel rest k)
                (anch.filter fun k => j + 1 ≤ k) with
            | some ms => some (matchJoin ⟨j, j + 1⟩ ms)
            | none => none
      else none
    else none

/-- Modelled from the spec: `wordBoundaryMatch` (the `matchesWords`
primitive). The word must match starting at a word-boundary anchor; with
`contiguous` set the whole word must match contiguously there, otherwise
later characters may restart at later word boundaries. Returns `none`
on an empty target. -/
def wordBoundaryMatch (word target : String) (contiguous : Bool) : Option (List IMatch) :=
  let t := target.toList
  if t.isEmpty then none
  else
    List.findSome?
      (fun k => matchWordAtF (wordAnchors t) contiguous t word.toList.length word.toList k)
      (wordAnchors t)

/-- Modelled from the spec: `camelCaseMatch` (the `matchesCamelCase`
primitive). Word characters match in order, restarting only at camel-case
anchors. Returns `none` on an empty target. -/
def camelCaseMatch (word target : String) : Option (List IMatch) :=
  let t := target.toList
  if t.isEmpty then none
  else
    List.findSome?
      (fun k => matchWordAtF (camelAnchors t) false t word.toList.length word.toList k)
      (camelAnchors t)

/-- Modelled from the spec: `prefixMatch` (the `matchesPrefix` primitive):
succeeds when the target is non-empty and starts, case-insensitively,
with the word, producing the single span covering the word (or no span
for an empty word). -/
def prefixMatch (word target : String) : Option (List IMatch) :=
  if target.toList.isEmpty then none
  else if target.length < word.length then none
  else if (lowerL word).isPrefixOf (lowerL target) then
    some (if 0 < word.length then [⟨0, word.length⟩] else [])
  else none

/-- First index at which `needle` occurs inside `hay`, if any. -/
def indexOfSub (needle : List Char) : List Char → Option Nat
  | [] => if needle.isEmpty then some 0 else none
  | c :: rest =>
    if needle.isPrefixOf (c :: rest) then some 0
    else (indexOfSub needle rest).map (· + 1)

/-- Modelled from the spec: `contiguousSubstringMatch` (the
`matchesContiguousSubString` primitive): the first case-insensitive
occurrence of the word inside the target, as one span. -/
def contiguousSubstringMatch (word target : String) : Option (List IMatch) :=
  match indexOfSub (lowerL word) (lowerL target) with
  | some i => some [⟨i, i + word.length⟩]
  | none => none

/-- The `or` filter combinator: the first filter that produces a match wins. -/
def orFilter (f g : IFilter) : IFilter := fun word target =>
  match f word target with
  | some ms => some ms
  | none => g word target

/-- `wordFilter = or(matchesPrefix, matchesWords, matchesContiguousSubString)`. -/
def wordFilter : IFilter :=
  orFilter prefixMatch (orFilter (fun w t => wordBoundaryMatch w t false) contiguousSubstringMatch)

end Filters

/-- `KeybindingMatch`: which aspects of one chord part matched. The
source's optional booleans (`undefined` meaning unmatched) are booleans
defaulting to `false`. -/
structure KeybindingMatch where
  ctrlKey : Bool := false
  shiftKey : Bool := false
  altKey : Bool := false
  metaKey : Bool := false
  keyCode : Bool := false
deriving DecidableEq, Repr

/-- `KeybindingMatches`: the two per-part flag sets. -/
structure KeybindingMatches where
  firstPart : KeybindingMatch
  chordPart : KeybindingMatch
deriving DecidableEq, Repr

/-- Modelled from the spec: one part of a resolved key combination, as
observed by the matcher (`ResolvedKeybinding` part): its modifier flags
(`hasMetaModifier()` and friends) and its accessible label without
modifiers (`getAriaLabelWithoutModifiers()`). The part structure and its
label providers live outside the given source tree. -/
structure KeybindingPart where
  hasMetaModifier : Bool
  hasCtrlModifier : Bool
  hasShiftModifier : Bool
  hasAltModifier : Bool
  ariaLabelWithoutModifiers : String
deriving DecidableEq, Repr

/-- Modelled from the spec: a resolved key combination
(`ResolvedKeybinding`) as observed by the matcher: its full display label
(`getLabel()`), full accessible label (`getAriaLabel()`), and its two
parts (`getParts()`; an absent part is `none`). -/
structure ResolvedKeybinding where
  label : String
  ariaLabel : String
  firstPart : Option KeybindingPart
  chordPart : Option KeybindingPart
deriving DecidableEq, Repr

/-- `IKeybindingItem`: one stored entry. The source's `commandLabel`,
`commandDefaultLabel` and `when` are strings whose JavaScript falsiness
(`''` or `null`) is modelled by the empty string; `isDefault` stands for
`keybindingItem.isDefault` of the wrapped `ResolvedKeybindingItem`. -/
structure IKeybindingItem where
  keybinding : Option ResolvedKeybinding
  isDefault : Bool
  command : String
  commandLabel : String
  commandDefaultLabel : String
  source : String
  whenCondition : String
deriving DecidableEq, Repr

/-- One style's modifier display strings (`ModifierLabels` of
`keybindingLabels`). Modelled from the spec: the label tables are
platform data outside the given source. -/
structure ModLabels where
  metaKey : String
  ctrlKey : String
  shiftKey : String
  altKey : String
deriving DecidableEq, Repr

/-- The three active label styles (`ModifierLabels` of the editor model). -/
structure ModifierLabels where
  ui : ModLabels
  aria : ModLabels
  user : ModLabels
deriving DecidableEq, Repr

/-- `IKeybindingItemEntry`: one search result; the six match fields
default to `none` (absent). -/
structure IKeybindingItemEntry where
  id : String
  templateId : String
  keybindingItem : IKeybindingItem
  commandIdMatches : Option (List IMatch) := none
  commandLabelMatches : Option (List IMatch) := none
  commandDefaultLabelMatches : Option (List IMatch) := none
  sourceMatches : Option (List IMatch) := none
  whenMatches : Option (List IMatch) := none
  keybindingMatches : Option KeybindingMatches := none
deriving DecidableEq, Repr

namespace KeybindingItemMatches

open Filters

/-- `distinct(matches, a => a.start + '.' + a.end)` specialised to match
spans: keep the first occurrence of each span value (the string key
`start + '.' + end` identifies exactly the value of the span). -/
def distinctAux (seen : List IMatch) : List IMatch → List IMatch
  | [] => []
  | m :: rest =>
    if seen.contains m then distinctAux seen rest
    else m :: distinctAux (m :: seen) rest

/-- The `matches.some(...)` test inside `filterAndSort`: some span of
`ms` other than `m` itself (by value) encloses `m`. -/
def isContainedByOther (ms : List IMatch) (m : IMatch) : Bool :=
  ms.any fun x => !(x.start == m.start && x.stop == m.stop) && (x.start ≤ m.start && m.stop ≤ x.stop)

/-- The sort order used by `filterAndSort`: ascending start offset. -/
def startLE (a b : IMatch) : Prop := a.start ≤ b.start

instance : DecidableRel startLE := fun a b => Nat.decLe a.start b.start

instance : IsTotal IMatch startLE := ⟨fun a b => Nat.le_total a.start b.start⟩

instance : IsTrans IMatch startLE := ⟨fun _ _ _ h h' => Nat.le_trans h h'⟩

/-- `KeybindingItemMatches.filterAndSort`: deduplicate spans by value,
drop every span enclosed by a value-distinct span of the input, and sort
by start offset ascending (a stable sort, like the JavaScript `sort`). -/
def filterAndSort (ms : List IMatch) : List IMatch :=
  List.insertionSort startLE
    ((distinctAux [] ms).filter fun m => !isContainedByOther ms m)

/-- `KeybindingItemMatches.matchesWords` (the word loop of the field
matcher): every word must match, spans accumulate; the first failed word
aborts with `none`. -/
def matchesWordsAux (target : String) (f : IFilter) : List String → List IMatch → Option (List IMatch)
  | [], acc => some acc
  | w :: ws, acc =>
    match f w target with
    | some ms => matchesWordsAux target f ws (acc ++ ms)
    | none => none

/-- `KeybindingItemMatches.matches` (the spec's `matchField`; `matches`
is a Lean keyword): try the whole query with `wordFilter`; on failure
fall back to the per-word matcher; post-process any found spans with
`filterAndSort`. -/
def matchField (searchValue target : String) (f : IFilter) (words : List String) : Option (List IMatch) :=
  let m := match wordFilter searchValue target with
    | some ms => some ms
    | none => matchesWordsAux target f words []
  match m with
  | some ms => some (filterAndSort ms)
  | none => none

/-- `KeybindingItemMatches.matchesMetaModifier`. -/
def matchesMetaModifier (ml : ModifierLabels) (part : Option KeybindingPart) (word : String) : Bool :=
  match part with
  | none => false
  | some p =>
    if !p.hasMetaModifier then false
    else if (prefixMatch ml.ui.metaKey word).isSome then true
    else if (prefixMatch ml.aria.metaKey word).isSome then true
    else if (prefixMatch ml.user.metaKey word).isSome then true
    else false

/-- `KeybindingItemMatches.matchesCtrlModifier`. -/
def matchesCtrlModifier (ml : ModifierLabels) (part : Option KeybindingPart) (word : String) : Bool :=
  match part with
  | none => false
  | some p =>
    if !p.hasCtrlModifier then false
    else if (prefixMatch ml.ui.ctrlKey word).isSome then true
    else if (prefixMatch ml.aria.ctrlKey word).isSome then true
    else if (prefixMatch ml.user.ctrlKey word).isSome then true
    else false

/-- `KeybindingItemMatches.matchesShiftModifier`. -/
def matchesShiftModifier (ml : ModifierLabels) (part : Option KeybindingPart) (word : String) : Bool :=
  match part with
  | none => false
  | some p =>
    if !p.hasShiftModifier then false
    else if (prefixMatch ml.ui.shiftKey word).isSome then true
    else if (prefixMatch ml.aria.shiftKey word).isSome then true
    else if (prefixMatch ml.user.shiftKey word).isSome then true
    else false

/-- `KeybindingItemMatches.matchesAltModifier`. -/
def matchesAltModifier (ml : ModifierLabels) (part : Option KeybindingPart) (word : String) : Bool :=
  match part with
  | none => false
  | some p =>
    if !p.hasAltModifier then false
    else if (prefixMatch ml.ui.altKey word).isSome then true
    else if (prefixMatch ml.aria.altKey word).isSome then true
    else if (prefixMatch ml.user.altKey word).isSome then true
    else false

/-- `KeybindingItemMatches.matchesKeyCode`: compare the part's accessible
label without modifiers with the word — exact case-insensitive equality
when either has length one, else a contiguous-substring match of the word
inside the label. An absent part matches nothing. -/
def matchesKeyCode (part : Option KeybindingPart) (word : String) : Bool :=
  match part with
  | none => false
  | some p =>
    let ariaLabel := p.ariaLabelWithoutModifiers
    if ariaLabel.length == 1 || word.length == 1 then
      equalsIgnoreCase ariaLabel word
    else
      (contiguousSubstringMatch word ariaLabel).isSome

/-- `KeybindingItemMatches.matchPart`: run the five checks for one word
against one part, setting the matched flags; the source's in-place
mutation of `match` becomes explicit state passing. -/
def matchPart (ml : ModifierLabels) (part : Option KeybindingPart) (m : KeybindingMatch)
    (word : String) : Bool × KeybindingMatch :=
  let matched := false
  let (matched, m) :=
    if matchesMetaModifier ml part word then (true, { m with metaKey := true }) else (matched, m)
  let (matched, m) :=
    if matchesCtrlModifier ml part word then (true, { m with ctrlKey := true }) else (matched, m)
  let (matched, m) :=
    if matchesShiftModifier ml part word then (true, { m with shiftKey := true }) else (matched, m)
  let (matched, m) :=
    if matchesAltModifier ml part word then (true, { m with altKey := true }) else (matched, m)
  let (matched, m) :=
    if matchesKeyCode part word then (true, { m with keyCode := true }) else (matched, m)
  (matched, m)

/-- `KeybindingItemMatches.hasAnyMatch`. -/
def hasAnyMatch (m : KeybindingMatch) : Bool :=
  m.altKey || m.ctrlKey || m.metaKey || m.shiftKey || m.keyCode

/-- One step of the word loop of `matchesKeybinding`: match the word
against both parts, record it when it matched either. -/
def keybindingStep (ml : ModifierLabels) (kb : ResolvedKeybinding)
    (acc : List String × KeybindingMatch × KeybindingMatch) (word : String) :
    List String × KeybindingMatch × KeybindingMatch :=
  let (matchedWords, fm, cm) := acc
  let (firstPartMatched, fm) := matchPart ml kb.firstPart fm word
  let (chordPartMatched, cm) := matchPart ml kb.chordPart cm word
  if firstPartMatched || chordPartMatched then (matchedWords ++ [word], fm, cm)
  else (matchedWords, fm, cm)

/-- `KeybindingItemMatches.matchesKeybinding`: the full-label fast path,
then the word loop; `none` unless every word matched and at least one
flag is set. -/
def matchesKeybinding (ml : ModifierLabels) (kb : ResolvedKeybinding) (searchValue : String)
    (words : List String) : Option KeybindingMatches :=
  if equalsIgnoreCase searchValue kb.ariaLabel || equalsIgnoreCase searchValue kb.label then
    some ⟨⟨true, true, true, true, true⟩, ⟨true, true, true, true, true⟩⟩
  else
    let (matchedWords, firstPartMatch, chordPartMatch) :=
      words.foldl (keybindingStep ml kb) ([], {}, {})
    if matchedWords.length ≠ words.length then none
    else if hasAnyMatch firstPartMatch || hasAnyMatch chordPartMatch then
      some ⟨firstPartMatch, chordPartMatch⟩
    else none

/-- The six fields computed by the `KeybindingItemMatches` constructor. -/
structure Result where
  commandIdMatches : Option (List IMatch)
  commandLabelMatches : Option (List IMatch)
  commandDefaultLabelMatches : Option (List IMatch)
  sourceMatches : Option (List IMatch)
  whenMatches : Option (List IMatch)
  keybindingMatches : Option KeybindingMatches
deriving DecidableEq, Repr

/-- The `KeybindingItemMatches` constructor: compute all six field
matches for one entry. -/
def compute (ml : ModifierLabels) (item : IKeybindingItem) (searchValue : String)
    (words keybindingWords : List String) : Result where
  commandIdMatches :=
    matchField searchValue item.command
      (orFilter (fun w t => wordBoundaryMatch w t false) camelCaseMatch) words
  commandLabelMatches :=
    if item.commandLabel ≠ "" then
      matchField searchValue item.commandLabel
        (fun word _ => wordBoundaryMatch word item.commandLabel true) words
    else none
  commandDefaultLabelMatches :=
    if item.commandDefaultLabel ≠ "" then
      matchField searchValue item.commandDefaultLabel
        (fun word _ => wordBoundaryMatch word item.commandDefaultLabel true) words
    else none
  sourceMatches :=
    matchField searchValue item.source (fun word _ => wordBoundaryMatch word item.source true) words
  whenMatches :=
    if item.whenCondition ≠ "" then
      matchField searchValue item.whenCondition
        (orFilter (fun w t => wordBoundaryMatch w t false) camelCaseMatch) words
    else none
  keybindingMatches :=
    match item.keybinding with
    | some kb => matchesKeybinding ml kb searchValue keybindingWords
    | none => none

/-- The inclusion test of `fetchKeybindingItems`: at least one of the six
field matches is non-null. -/
def Result.hasAny (r : Result) : Bool :=
  r.commandIdMatches.isSome || r.commandLabelMatches.isSome ||
    r.commandDefaultLabelMatches.isSome || r.sourceMatches.isSome ||
    r.whenMatches.isSome || r.keybindingMatches.isSome

end KeybindingItemMatches

namespace KeybindingsEditorModel

open KeybindingItemMatches

/-- `KEYBINDING_ENTRY_TEMPLATE_ID`. -/
def KEYBINDING_ENTRY_TEMPLATE_ID : String := "keybinding.entry.template"

/-- `KeybindingsEditorModel.getId`. -/
def getId (item : IKeybindingItem) : String :=
  item.command ++
    (match item.keybinding with
     | some kb => kb.ariaLabel
     | none => "") ++
    item.source ++ item.whenCondition

/-- Build the result entry pushed by `fetchKeybindingItems` for a
matching item. -/
def entryOf (item : IKeybindingItem) (r : KeybindingItemMatches.Result) : IKeybindingItemEntry where
  id := getId item
  templateId := KEYBINDING_ENTRY_TEMPLATE_ID
  keybindingItem := item
  commandIdMatches := r.commandIdMatches
  commandLabelMatches := r.commandLabelMatches
  commandDefaultLabelMatches := r.commandDefaultLabelMatches
  sourceMatches := r.sourceMatches
  whenMatches := r.whenMatches
  keybindingMatches := r.keybindingMatches

/-- The words of a (trimmed, non-empty) query: `searchValue.split(' ')`. -/
def wordsOf (searchValue : String) : List String := jsSplit searchValue ' '

/-- The key-combination words: split on `+` when the query contains one
(`searchValue.indexOf('+') !== -1`), else the space-split words. -/
def keybindingWordsOf (searchValue : String) : List String :=
  if searchValue.toList.contains '+' then jsSplit searchValue '+' else wordsOf searchValue

/-- `KeybindingsEditorModel.fetchKeybindingItems`: run the matcher over
every stored item in order, pushing an entry whenever one of the six
field matches is non-null. -/
def fetchKeybindingItems (ml : ModifierLabels) (items : List IKeybindingItem)
    (searchValue : String) : List IKeybindingItemEntry :=
  let words := wordsOf searchValue
  let keybindingWords := keybindingWordsOf searchValue
  items.foldl
    (fun result item =>
      let r := compute ml item searchValue words keybindingWords
      if r.hasAny then result ++ [entryOf item r] else result)
    []

/-- The annotation-free entry of the empty-query branch of `fetch`; its
six match fields stay at their `none` defaults. -/
def plainEntryOf (item : IKeybindingItem) : IKeybindingItemEntry where
  id := getId item
  templateId := KEYBINDING_ENTRY_TEMPLATE_ID
  keybindingItem := item

/-- `KeybindingsEditorModel.fetch`: trim the query; an empty query
returns every stored item unannotated, a non-empty one filters through
the matcher. -/
def fetch (ml : ModifierLabels) (items : List IKeybindingItem)
    (searchValue : String) : List IKeybindingItemEntry :=
  let searchValue := jsTrim searchValue
  if searchValue ≠ "" then fetchKeybindingItems ml items searchValue
  else items.map plainEntryOf

/-- `KeybindingsEditorModel.compareKeybindingData`, parameterised by the
locale-aware comparison. Modelled from the spec: `localeCompare` is an
external, locale-dependent primitive, passed as `lc`. -/
def compareKeybindingData (lc : String → String → Int) (a b : IKeybindingItem) : Int :=
  if a.keybinding.isSome && !b.keybinding.isSome then -1
  else if b.keybinding.isSome && !a.keybinding.isSome then 1
  else if a.commandLabel ≠ "" && b.commandLabel = "" then -1
  else if b.commandLabel ≠ "" && a.commandLabel = "" then 1
  else if a.commandLabel ≠ "" && b.commandLabel ≠ "" && a.commandLabel ≠ b.commandLabel then
    lc a.commandLabel b.commandLabel
  else if a.command = b.command then (if a.isDefault then 1 else -1)
  else lc a.command b.command

/-- The slice of a `ResolvedKeybindingItem` that `toKeybindingEntry`
reads: the resolved combination, the serialized `when` expression
(`''` when absent) and the default flag. -/
structure ResolvedKeybindingItemRec where
  resolvedKeybinding : Option ResolvedKeybinding
  command : String
  whenSerialized : String
  isDefault : Bool
deriving DecidableEq, Repr

/-- `KeybindingsEditorModel.toKeybindingEntry`, with the registry lookups
(`getCommandLabel` / `getCommandDefaultLabel`) passed as functions.
Modelled from the spec: the action/menu/editor registries are external;
the two label functions stand for the priority-ordered lookup chain. -/
def toKeybindingEntry (getCommandLabel getCommandDefaultLabel : String → String)
    (command : String) (k : ResolvedKeybindingItemRec) : IKeybindingItem where
  keybinding := k.resolvedKeybinding
  isDefault := k.isDefault
  command := command
  commandLabel := getCommandLabel command
  commandDefaultLabel := getCommandDefaultLabel command
  source := if k.isDefault then "Default" else "User"
  whenCondition := k.whenSerialized

/-- The synthetic `ResolvedKeybindingItem` that `resolve` creates for an
unbound command: `new ResolvedKeybindingItem(null, command, null, null,
commandsWithDefaultKeybindings.indexOf(command) === -1)`. -/
def mkUnboundItem (commandsWithDefaultKeybindings : List String)
    (command : String) : ResolvedKeybindingItemRec where
  resolvedKeybinding := none
  command := command
  whenSerialized := ""
  isDefault := !commandsWithDefaultKeybindings.contains command

/-- The entry-building part of `KeybindingsEditorModel.resolve`: one entry
per binding that has a command, then one synthetic entry per unbound
command, sorted by `compareKeybindingData`. Modelled from the spec: the
keybinding service, the unbound-command enumeration and the registries
are external and passed as data. -/
def resolveItems (getCommandLabel getCommandDefaultLabel : String → String)
    (keybindings : List ResolvedKeybindingItemRec)
    (commandsWithDefaultKeybindings unboundCommands : List String)
    (lc : String → String → Int) : List IKeybindingItem :=
  let bound :=
    (keybindings.filter fun k => k.command ≠ "").map fun k =>
      toKeybindingEntry getCommandLabel getCommandDefaultLabel k.command k
  let synthetic :=
    unboundCommands.map fun command =>
      toKeybindingEntry getCommandLabel getCommandDefaultLabel command
        (mkUnboundItem commandsWithDefaultKeybindings command)
  List.insertionSort (fun a b => compareKeybindingData lc a b ≤ 0) (bound ++ synthetic)

end KeybindingsEditorModel

/-! ### Concrete instantiations used by examples and witnesses

The modifier label tables and resolved combinations are external data;
the values below are modelled from the spec (platform- and style-specific
display names for meta/ctrl/shift/alt), in macOS style (`mlMac`) and
Windows style (`mlWin`). -/

/-- macOS-style modifier label tables (UI symbols, accessibility names,
user-settings names). -/
def mlMac : ModifierLabels where
  ui := { metaKey := "⌘", ctrlKey := "⌃", shiftKey := "⇧", altKey := "⌥" }
  aria := { metaKey := "Command", ctrlKey := "Control", shiftKey := "Shift", altKey := "Alt" }
  user := { metaKey := "cmd", ctrlKey := "ctrl", shiftKey := "shift", altKey := "alt" }

/-- Windows-style modifier label tables. -/
def mlWin : ModifierLabels where
  ui := { metaKey := "Windows", ctrlKey := "Ctrl", shiftKey := "Shift", altKey := "Alt" }
  aria := { metaKey := "Windows", ctrlKey := "Control", shiftKey := "Shift", altKey := "Alt" }
  user := { metaKey := "win", ctrlKey := "ctrl", shiftKey := "shift", altKey := "alt" }

/-- The single part of a ctrl+z combination. -/
def ctrlZPart : KeybindingPart where
  hasMetaModifier := false
  hasCtrlModifier := true
  hasShiftModifier := false
  hasAltModifier := false
  ariaLabelWithoutModifiers := "Z"

/-- A ctrl+z combination with no chord, labelled macOS style. -/
def kbCtrlZ : ResolvedKeybinding where
  label := "⌃Z"
  ariaLabel := "Control+Z"
  firstPart := some ctrlZPart
  chordPart := none

/-- The example entry of the spec: `editor.action.undo`, bound to ctrl+z,
labelled "Undo", default source. -/
def undoItem : IKeybindingItem where
  keybinding := some kbCtrlZ
  isDefault := true
  command := "editor.action.undo"
  commandLabel := "Undo"
  commandDefaultLabel := ""
  source := "Default"
  whenCondition := ""

/-- A ctrl+x combination with no chord, labelled Windows style. -/
def kbCtrlX : ResolvedKeybinding where
  label := "Ctrl+X"
  ariaLabel := "Control+X"
  firstPart := some ⟨false, true, false, false, "X"⟩
  chordPart := none

/-- A two-part chord combination ctrl+z ctrl+c, labelled Windows style. -/
def kbChordZC : ResolvedKeybinding where
  label := "Ctrl+Z Ctrl+C"
  ariaLabel := "Control+Z Control+C"
  firstPart := some ⟨false, true, false, false, "Z"⟩
  chordPart := some ⟨false, true, false, false, "C"⟩

/-- A simple total locale-comparison stand-in for witnesses. -/
def lcSimple (a b : String) : Int := if a = b then 0 else if a < b then -1 else 1

/-! ### Claim-side readings and witness data -/

/-- The key-code rule exactly as the claim words it: either label or word
has length one and they are case-insensitively equal, or both have length
greater than one and the word contiguous-substring-matches in the label. -/
def specKeyCodeRule (labelNoMods word : String) : Bool :=
  ((labelNoMods.length == 1 || word.length == 1) &&
      Filters.equalsIgnoreCase labelNoMods word) ||
    (decide (1 < labelNoMods.length) && decide (1 < word.length) &&
      (Filters.contiguousSubstringMatch word labelNoMods).isSome)
/-- The prefix rule exactly as the claim words it: the query word is a
case-insensitive prefix of the display string. -/
def specWordIsPrefixOfLabel (word label : String) : Bool :=
  (Filters.lowerL word).isPrefixOf (Filters.lowerL label)

/-- An unbound entry (no key combination), used by witnesses. -/
def unboundExample : IKeybindingItem where
  keybinding := none
  isDefault := true
  command := "workbench.action.somethingUnbound"
  commandLabel := ""
  commandDefaultLabel := ""
  source := "Default"
  whenCondition := ""

/-- The spec's "Apple" user entry. -/
def appleUser : IKeybindingItem where
  keybinding := none
  isDefault := false
  command := "a.cmd"
  commandLabel := "Apple"
  commandDefaultLabel := ""
  source := "User"
  whenCondition := ""

/-- The spec's "Apple" default entry, same command as `appleUser`. -/
def appleDefault : IKeybindingItem where
  keybinding := none
  isDefault := true
  command := "a.cmd"
  commandLabel := "Apple"
  commandDefaultLabel := ""
  source := "Default"
  whenCondition := ""

/-- The amended reading: the style's display string is a case-insensitive
prefix of the (non-empty) query word. -/
def specLabelIsPrefixOfWord (label word : String) : Bool :=
  !word.toList.isEmpty && (Filters.lowerL label).isPrefixOf (Filters.lowerL word)

/-- A word matches a part when any of the five checks succeeds (the
value of the `matched` accumulator of `matchPart`). -/
def wordMatchesPart (ml : ModifierLabels) (part : Option KeybindingPart) (word : String) : Bool :=
  KeybindingItemMatches.matchesMetaModifier ml part word ||
    KeybindingItemMatches.matchesCtrlModifier ml part word ||
    KeybindingItemMatches.matchesShiftModifier ml part word ||
    KeybindingItemMatches.matchesAltModifier ml part word ||
    KeybindingItemMatches.matchesKeyCode part word

/-! ### C3: the full-label fast path -/

/-- C3: whenever the query compares case-insensitively equal to the
combination's full accessible label or full display label,
`matchesKeybinding` returns the result with all five flags true in both
parts, for any word list (no per-word matching) and hence also for
chord-less combinations. -/
theorem matchesKeybinding_full_label (ml : ModifierLabels) (kb : ResolvedKeybinding)
    (searchValue : String) (words : List String)
    (h : Filters.equalsIgnoreCase searchValue kb.ariaLabel = true ∨
      Filters.equalsIgnoreCase searchValue kb.label = true) :
    KeybindingItemMatches.matchesKeybinding ml kb searchValue words =
      some ⟨⟨true, true, true, true, true⟩, ⟨true, true, true, true, true⟩⟩ := by
  unfold KeybindingItemMatches.matchesKeybinding
  rcases h with h | h <;> simp [h]

/-- Witness for C3 at a concrete chord-less combination: the query
"control+z" equals the accessible label "Control+Z" up to case. -/
theorem matchesKeybinding_full_label_witness :
    KeybindingItemMatches.matchesKeybinding mlMac kbCtrlZ "control+z" ["control", "z"] =
      some ⟨⟨true, true, true, true, true⟩, ⟨true, true, true, true, true⟩⟩ :=
  matchesKeybinding_full_label mlMac kbCtrlZ "control+z" ["control", "z"] (Or.inl (by decide))

/-! ### C4: the spec's end-to-end example -/

/-- C4: on the single stored entry `editor.action.undo` (ctrl+z, label
"Undo", source Default): searching "undo" gives exactly one result whose
command-label match is the single span [0,4) over "Undo"; searching
"ctrl+z" gives exactly one result whose key-combination match sets
exactly ctrlKey and keyCode in the first part (and nothing in the chord
part); searching "redo" gives no result. -/
theorem fetch_undo_example :
    (KeybindingsEditorModel.fetch mlMac [undoItem] "undo").map
        (fun e => e.commandLabelMatches) = [some [⟨0, 4⟩]] ∧
    (KeybindingsEditorModel.fetch mlMac [undoItem] "ctrl+z").map
        (fun e => e.keybindingMatches) =
      [some ⟨{ ctrlKey := true, keyCode := true }, {}⟩] ∧
    KeybindingsEditorModel.fetch mlMac [undoItem] "redo" = [] := by
  decide

/-! ### C8: the key-code rule -/

/-- Counterexample to C8: for a present part whose label without
modifiers is "Up" and the empty query word (as produced by a query such
as "ctrl+"), the code matches (the empty word contiguous-substring-matches
anywhere) while the claimed rule, which requires both lengths to exceed
one, does not. -/
theorem matchesKeyCode_cex :
    KeybindingItemMatches.matchesKeyCode (some ⟨false, false, false, false, "Up"⟩) "" = true ∧
    specKeyCodeRule "Up" "" = false := by
  decide

/-- C8 as amended: for a present part, the key-code flag is matched iff
either the label without modifiers or the word has length one and they
are exactly case-insensitively equal, or neither has length one and the
word contiguous-substring-matches within the label (so an empty word
matches any label whose length is not one). -/
theorem matchesKeyCode_spec (p : KeybindingPart) (word : String) :
    KeybindingItemMatches.matchesKeyCode (some p) word =
      (((p.ariaLabelWithoutModifiers.length == 1 || word.length == 1) &&
          Filters.equalsIgnoreCase p.ariaLabelWithoutModifiers word) ||
        (!(p.ariaLabelWithoutModifiers.length == 1) && !(word.length == 1) &&
          (Filters.contiguousSubstringMatch word p.ariaLabelWithoutModifiers).isSome)) := by
  unfold KeybindingItemMatches.matchesKeyCode
  cases h1 : (p.ariaLabelWithoutModifiers.length == 1) <;>
    cases h2 : (word.length == 1) <;> simp [h1, h2]

/-! ### C9: the rebuild-time comparator -/

/-- C9: the five prioritised rules of `compareKeybindingData`: a bound
entry before an unbound one; then an entry with a label before one
without; then locale order on differing labels; then, among equal
commands, the non-default entry before the default one; else locale
order on commands. -/
theorem compareKeybindingData_spec (lc : String → String → Int) (a b : IKeybindingItem) :
    (a.keybinding.isSome = true → b.keybinding.isSome = false →
      KeybindingsEditorModel.compareKeybindingData lc a b = -1) ∧
    (b.keybinding.isSome = true → a.keybinding.isSome = false →
      KeybindingsEditorModel.compareKeybindingData lc a b = 1) ∧
    (a.keybinding.isSome = b.keybinding.isSome →
      (a.commandLabel ≠ "" → b.commandLabel = "" →
        KeybindingsEditorModel.compareKeybindingData lc a b = -1) ∧
      (b.commandLabel ≠ "" → a.commandLabel = "" →
        KeybindingsEditorModel.compareKeybindingData lc a b = 1) ∧
      (a.commandLabel ≠ "" → b.commandLabel ≠ "" → a.commandLabel ≠ b.commandLabel →
        KeybindingsEditorModel.compareKeybindingData lc a b = lc a.commandLabel b.commandLabel) ∧
      (a.commandLabel = b.commandLabel →
        (a.command = b.command →
          (a.isDefault = false → KeybindingsEditorModel.compareKeybindingData lc a b = -1) ∧
          (a.isDefault = true → KeybindingsEditorModel.compareKeybindingData lc a b = 1)) ∧
        (a.command ≠ b.command →
          KeybindingsEditorModel.compareKeybindingData lc a b = lc a.command b.command))) := by
  unfold KeybindingsEditorModel.compareKeybindingData
  refine ⟨fun h1 h2 => by simp [h1, h2], fun h1 h2 => by simp [h1, h2], fun hkb => ?_⟩
  refine ⟨fun h1 h2 => ?_, fun h1 h2 => ?_, fun h1 h2 h3 => ?_, fun hl => ⟨fun hc => ?_, fun hc => ?_⟩⟩
  · cases h : a.keybinding.isSome <;> simp [h, ← hkb, h1, h2]
  · cases h : a.keybinding.isSome <;> simp [h, ← hkb, h1, h2]
  · cases h : a.keybinding.isSome <;> simp [h, ← hkb, h1, h2, h3]
  · cases h : a.keybinding.isSome <;>
      cases hl1 : decide (a.commandLabel = "") <;> simp_all
  · cases h : a.keybinding.isSome <;>
      cases hl1 : decide (a.commandLabel = "") <;> simp_all

/-- Witness for C9: a bound entry sorts before an unbound one, and with
equal commands and labels the user-source entry sorts before the default
one. -/
theorem compareKeybindingData_spec_witness :
    KeybindingsEditorModel.compareKeybindingData lcSimple undoItem unboundExample = -1 ∧
    KeybindingsEditorModel.compareKeybindingData lcSimple appleUser appleDefault = -1 :=
  ⟨(compareKeybindingData_spec lcSimple undoItem unboundExample).1 rfl rfl,
    ((((compareKeybindingData_spec lcSimple appleUser appleDefault).2.2 rfl).2.2.2 rfl).1
      rfl).1 rfl⟩

/-! ### C10: synthetic entries for unbound commands -/

/-- C10: for every unbound command, `resolveItems` contains a synthetic
entry with no key combination whose source is "Default" exactly when the
command is absent from the default-keybinding commands, and "User" when
the command has a default binding (a binding the user removed). -/
theorem resolveItems_unbound (getL getDL : String → String)
    (kbs : List KeybindingsEditorModel.ResolvedKeybindingItemRec)
    (defaults unbound : List String) (lc : String → String → Int)
    (c : String) (hc : c ∈ unbound) :
    ∃ e ∈ KeybindingsEditorModel.resolveItems getL getDL kbs defaults unbound lc,
      e.command = c ∧ e.keybinding = none ∧
      (e.source = "Default" ↔ c ∉ defaults) ∧
      (c ∈ defaults → e.source = "User") := by
  refine ⟨KeybindingsEditorModel.toKeybindingEntry getL getDL c
      (KeybindingsEditorModel.mkUnboundItem defaults c), ?_, rfl, rfl, ?_, ?_⟩
  · unfold KeybindingsEditorModel.resolveItems
    rw [List.mem_insertionSort]
    exact List.mem_append_right _ (List.mem_map_of_mem _ hc)
  · show (if !defaults.contains c then "Default" else "User") = "Default" ↔ c ∉ defaults
    by_cases h : c ∈ defaults <;> simp [h]
  · intro h
    show (if !defaults.contains c then "Default" else "User") = "User"
    simp [h]

/-- Witness for C10: with defaults `["bar"]` and unbound commands
`["foo", "bar"]`, the synthetic entry for "foo" (never bound by default)
carries source "Default". -/
theorem resolveItems_unbound_witness :
    ∃ e ∈ KeybindingsEditorModel.resolveItems (fun _ => "") (fun _ => "") [] ["bar"]
        ["foo", "bar"] lcSimple,
      e.command = "foo" ∧ e.keybinding = none ∧
      (e.source = "Default" ↔ "foo" ∉ ["bar"]) ∧
      ("foo" ∈ ["bar"] → e.source = "User") :=
  resolveItems_unbound (fun _ => "") (fun _ => "") [] ["bar"] ["foo", "bar"] lcSimple "foo"
    (by decide)

/-! ### C7: the modifier-prefix rule -/

/-- The length of the lowered character view equals the string length. -/
theorem lowerL_length (s : String) : (Filters.lowerL s).length = s.length := by
  simp only [Filters.lowerL, List.length_map]
  rfl

/-- When `prefixMatch` succeeds: the target is non-empty and starts,
case-insensitively, with the pattern word (the length guard of the source
is subsumed by the prefix test). -/
theorem prefixMatch_isSome (w t : String) :
    (Filters.prefixMatch w t).isSome =
      (!t.toList.isEmpty && (Filters.lowerL w).isPrefixOf (Filters.lowerL t)) := by
  unfold Filters.prefixMatch
  by_cases h1 : t.toList.isEmpty
  · have h1' : t.data = [] := by simpa [List.isEmpty_iff] using h1
    simp [h1, h1']
  · have h1' : ¬t.data = [] := by simpa [List.isEmpty_iff] using h1
    by_cases h3 : (Filters.lowerL w).isPrefixOf (Filters.lowerL t)
    · have hle : w.length ≤ t.length := by
        have := List.IsPrefix.length_le (List.isPrefixOf_iff_prefix.mp h3)
        simpa [lowerL_length] using this
      simp [h1', h3, Nat.not_lt.mpr hle, List.isEmpty_iff]
    · by_cases h2 : t.length < w.length <;> simp [h1', h2, h3, List.isEmpty_iff]

/-- Counterexample to C7: the part carries the ctrl modifier and the word
"ct" is a case-insensitive prefix of the Windows-style UI and
user-settings ctrl display strings ("Ctrl" and "ctrl"), yet the code does
not match the ctrl flag — the source tests the converse direction
(display string a prefix of the word). -/
theorem matchesCtrlModifier_cex :
    (⟨false, true, false, false, "X"⟩ : KeybindingPart).hasCtrlModifier = true ∧
    specWordIsPrefixOfLabel "ct" mlWin.ui.ctrlKey = true ∧
    specWordIsPrefixOfLabel "ct" mlWin.user.ctrlKey = true ∧
    KeybindingItemMatches.matchesCtrlModifier mlWin
      (some ⟨false, true, false, false, "X"⟩) "ct" = false := by
  decide

/-- The shape shared by the four modifier matchers. -/
theorem modifier_chain (has s1 s2 s3 : Bool) :
    (if !has then false
     else if s1 then true else if s2 then true else if s3 then true else false) =
      (has && (s1 || s2 || s3)) := by
  cases has <;> cases s1 <;> cases s2 <;> cases s3 <;> rfl

/-- C7 as amended: an absent part matches nothing, and for a present part
a meta/ctrl/shift/alt flag is matched by a word iff the part carries that
modifier and the word is non-empty and has one of the three active
styles' display strings for that modifier as a case-insensitive prefix
(the display string is a prefix of the word, not the word of the
display string). -/
theorem modifier_matchers_spec (ml : ModifierLabels) (p : KeybindingPart) (word : String) :
    (KeybindingItemMatches.matchesMetaModifier ml none word = false ∧
      KeybindingItemMatches.matchesCtrlModifier ml none word = false ∧
      KeybindingItemMatches.matchesShiftModifier ml none word = false ∧
      KeybindingItemMatches.matchesAltModifier ml none word = false) ∧
    KeybindingItemMatches.matchesMetaModifier ml (some p) word =
      (p.hasMetaModifier && (specLabelIsPrefixOfWord ml.ui.metaKey word ||
        specLabelIsPrefixOfWord ml.aria.metaKey word ||
        specLabelIsPrefixOfWord ml.user.metaKey word)) ∧
    KeybindingItemMatches.matchesCtrlModifier ml (some p) word =
      (p.hasCtrlModifier && (specLabelIsPrefixOfWord ml.ui.ctrlKey word ||
        specLabelIsPrefixOfWord ml.aria.ctrlKey word ||
        specLabelIsPrefixOfWord ml.user.ctrlKey word)) ∧
    KeybindingItemMatches.matchesShiftModifier ml (some p) word =
      (p.hasShiftModifier && (specLabelIsPrefixOfWord ml.ui.shiftKey word ||
        specLabelIsPrefixOfWord ml.aria.shiftKey word ||
        specLabelIsPrefixOfWord ml.user.shiftKey word)) ∧
    KeybindingItemMatches.matchesAltModifier ml (some p) word =
      (p.hasAltModifier && (specLabelIsPrefixOfWord ml.ui.altKey word ||
        specLabelIsPrefixOfWord ml.aria.altKey word ||
        specLabelIsPrefixOfWord ml.user.altKey word)) := by
  refine ⟨⟨rfl, rfl, rfl, rfl⟩, ?_, ?_, ?_, ?_⟩ <;>
    · simp only [KeybindingItemMatches.matchesMetaModifier,
        KeybindingItemMatches.matchesCtrlModifier,
        KeybindingItemMatches.matchesShiftModifier,
        KeybindingItemMatches.matchesAltModifier, modifier_chain]
      congr 1
      simp only [prefixMatch_isSome, specLabelIsPrefixOfWord]

/-! ### C5: the two-phase field matcher -/

/-- When every word matches, the word loop accumulates the spans of all
words, in order, onto the accumulator. -/
theorem matchesWordsAux_all_some (target : String) (f : IFilter) :
    ∀ (words : List String) (acc : List IMatch),
      (∀ w ∈ words, (f w target).isSome) →
      KeybindingItemMatches.matchesWordsAux target f words acc =
        some (acc ++ words.flatMap fun w => (f w target).getD []) := by
  intro words
  induction words with
  | nil => intro acc _; simp [KeybindingItemMatches.matchesWordsAux]
  | cons w ws ih =>
    intro acc h
    have hw := h w (List.mem_cons_self w ws)
    obtain ⟨ms, hms⟩ := Option.isSome_iff_exists.mp hw
    rw [KeybindingItemMatches.matchesWordsAux, hms]
    dsimp only
    rw [ih (acc ++ ms) fun x hx => h x (List.mem_cons_of_mem w hx)]
    simp [hms]

/-- When some word fails, the word loop returns `none`. -/
theorem matchesWordsAux_none (target : String) (f : IFilter) :
    ∀ (words : List String) (acc : List IMatch),
      (∃ w ∈ words, f w target = none) →
      KeybindingItemMatches.matchesWordsAux target f words acc = none := by
  intro words
  induction words with
  | nil => intro acc h; simp at h
  | cons w ws ih =>
    intro acc h
    rw [KeybindingItemMatches.matchesWordsAux]
    cases hw : f w target with
    | none => rfl
    | some ms =>
      obtain ⟨x, hx, hxn⟩ := h
      rcases List.mem_cons.mp hx with rfl | hx'
      · exact absurd hxn (by simp [hw])
      · exact ih (acc ++ ms) ⟨x, hx', hxn⟩

/-- C5: the field matcher first tries the whole query with the general
filter (prefix / word / contiguous substring); only when that fails does
it fall back to requiring every word to satisfy the field's word matcher
(any failing word makes the field fail; otherwise the words' spans are
accumulated); either path post-processes with `filterAndSort`. -/
theorem matchField_spec (q t : String) (f : IFilter) (words : List String) :
    (∀ ms, Filters.wordFilter q t = some ms →
      KeybindingItemMatches.matchField q t f words =
        some (KeybindingItemMatches.filterAndSort ms)) ∧
    (Filters.wordFilter q t = none →
      ((∃ w ∈ words, f w t = none) →
        KeybindingItemMatches.matchField q t f words = none) ∧
      ((∀ w ∈ words, (f w t).isSome) →
        KeybindingItemMatches.matchField q t f words =
          some (KeybindingItemMatches.filterAndSort
            (words.flatMap fun w => (f w t).getD [])))) := by
  refine ⟨fun ms hms => ?_, fun hn => ⟨fun hex => ?_, fun hall => ?_⟩⟩
  · rw [KeybindingItemMatches.matchField, hms]
  · rw [KeybindingItemMatches.matchField, hn, matchesWordsAux_none t f words [] hex]
  · rw [KeybindingItemMatches.matchField, hn, matchesWordsAux_all_some t f words [] hall]
    simp

/-- Witness for C5 at concrete inputs: the whole-query pass matches
"undo" in "Undo" as a prefix, and with a failing word ("xyz" in "Undo")
the fallback pass fails the field. -/
theorem matchField_spec_witness :
    KeybindingItemMatches.matchField "undo" "Undo"
        (fun w _ => Filters.wordBoundaryMatch w "Undo" true) ["undo"] =
      some (KeybindingItemMatches.filterAndSort [⟨0, 4⟩]) ∧
    KeybindingItemMatches.matchField "xyz" "Undo"
        (fun w _ => Filters.wordBoundaryMatch w "Undo" true) ["xyz"] = none :=
  ⟨(matchField_spec "undo" "Undo" (fun w _ => Filters.wordBoundaryMatch w "Undo" true)
      ["undo"]).1 [⟨0, 4⟩] (by decide),
    ((matchField_spec "xyz" "Undo" (fun w _ => Filters.wordBoundaryMatch w "Undo" true)
        ["xyz"]).2 (by decide)).1 ⟨"xyz", by decide, by decide⟩⟩

/-! ### C6: span post-processing -/

/-- Membership in the dedup pass: kept iff present in the input and not
already seen. -/
theorem distinctAux_mem :
    ∀ (l seen : List IMatch) (x : IMatch),
      x ∈ KeybindingItemMatches.distinctAux seen l ↔ x ∈ l ∧ x ∉ seen := by
  intro l
  induction l with
  | nil => intro seen x; simp [KeybindingItemMatches.distinctAux]
  | cons m rest ih =>
    intro seen x
    rw [KeybindingItemMatches.distinctAux]
    by_cases hm : seen.contains m
    · have hmem : m ∈ seen := by simpa [List.contains] using hm
      rw [if_pos hm, ih]
      constructor
      · rintro ⟨h1, h2⟩
        exact ⟨List.mem_cons_of_mem _ h1, h2⟩
      · rintro ⟨h1, h2⟩
        rcases List.mem_cons.mp h1 with rfl | h1'
        · exact absurd hmem h2
        · exact ⟨h1', h2⟩
    · have hmem : m ∉ seen := by simpa [List.contains] using hm
      rw [if_neg hm]
      constructor
      · intro hx
        rcases List.mem_cons.mp hx with rfl | hx'
        · exact ⟨List.mem_cons_self _ _, hmem⟩
        · obtain ⟨h1, h2⟩ := (ih (m :: seen) x).mp hx'
          exact ⟨List.mem_cons_of_mem _ h1, fun hs => h2 (List.mem_cons_of_mem _ hs)⟩
      · rintro ⟨h1, h2⟩
        rcases List.mem_cons.mp h1 with rfl | h1'
        · exact List.mem_cons_self _ _
        · by_cases hxm : x = m
          · subst hxm; exact List.mem_cons_self _ _
          · refine List.mem_cons_of_mem _ ((ih (m :: seen) x).mpr ⟨h1', ?_⟩)
            intro hs
            rcases List.mem_cons.mp hs with h | h
            · exact hxm h
            · exact h2 h

/-- The dedup pass has no duplicates. -/
theorem distinctAux_nodup :
    ∀ (l seen : List IMatch), (KeybindingItemMatches.distinctAux seen l).Nodup := by
  intro l
  induction l with
  | nil => intro seen; simp [KeybindingItemMatches.distinctAux]
  | cons m rest ih =>
    intro seen
    rw [KeybindingItemMatches.distinctAux]
    by_cases hm : seen.contains m
    · rw [if_pos hm]; exact ih seen
    · rw [if_neg hm]
      refine List.nodup_cons.mpr ⟨fun hmem => ?_, ih (m :: seen)⟩
      exact ((distinctAux_mem rest (m :: seen) m).mp hmem).2 (List.mem_cons_self _ _)

/-- The containment test, as a proposition: some value-distinct span of
the input encloses `m`. -/
theorem isContainedByOther_iff (ms : List IMatch) (m : IMatch) :
    KeybindingItemMatches.isContainedByOther ms m = true ↔
      ∃ x ∈ ms, x ≠ m ∧ x.start ≤ m.start ∧ m.stop ≤ x.stop := by
  unfold KeybindingItemMatches.isContainedByOther
  rw [List.any_eq_true]
  refine exists_congr fun x => and_congr_right fun _ => ?_
  cases hs : decide (x.start ≤ m.start) <;> cases ht : decide (m.stop ≤ x.stop) <;>
    (simp_all [IMatch.ext_iff]; try tauto)

/-- C6: the post-processed span list has no two value-identical spans,
contains no span enclosed by a value-distinct span of the input, is
sorted by start offset, and keeps exactly the input spans that no
value-distinct input span encloses. -/
theorem filterAndSort_spec (ms : List IMatch) :
    List.Pairwise (fun a b => ¬(a.start = b.start ∧ a.stop = b.stop))
      (KeybindingItemMatches.filterAndSort ms) ∧
    (∀ m ∈ KeybindingItemMatches.filterAndSort ms,
      ¬∃ x ∈ ms, x ≠ m ∧ x.start ≤ m.start ∧ m.stop ≤ x.stop) ∧
    List.Sorted KeybindingItemMatches.startLE (KeybindingItemMatches.filterAndSort ms) ∧
    (∀ m, m ∈ KeybindingItemMatches.filterAndSort ms ↔
      m ∈ ms ∧ ¬∃ x ∈ ms, x ≠ m ∧ x.start ≤ m.start ∧ m.stop ≤ x.stop) := by
  have hmem : ∀ m, m ∈ KeybindingItemMatches.filterAndSort ms ↔
      m ∈ ms ∧ ¬∃ x ∈ ms, x ≠ m ∧ x.start ≤ m.start ∧ m.stop ≤ x.stop := by
    intro m
    unfold KeybindingItemMatches.filterAndSort
    rw [List.mem_insertionSort, List.mem_filter, distinctAux_mem]
    have hiff := isContainedByOther_iff ms m
    constructor
    · rintro ⟨⟨h1, _⟩, h2⟩
      have hfalse : KeybindingItemMatches.isContainedByOther ms m = false := by
        simpa using h2
      exact ⟨h1, fun hex => by simp [hiff.mpr hex] at hfalse⟩
    · rintro ⟨h1, h2⟩
      refine ⟨⟨h1, List.not_mem_nil m⟩, ?_⟩
      have hfalse : KeybindingItemMatches.isContainedByOther ms m = false := by
        cases hb : KeybindingItemMatches.isContainedByOther ms m
        · rfl
        · exact absurd (hiff.mp hb) h2
      simp [hfalse]
  have hnodup : (KeybindingItemMatches.filterAndSort ms).Nodup := by
    unfold KeybindingItemMatches.filterAndSort
    exact ((List.perm_insertionSort _ _).nodup_iff).mpr
      ((distinctAux_nodup ms []).filter _)
  refine ⟨?_, fun m hm => ((hmem m).mp hm).2, ?_, hmem⟩
  · exact hnodup.imp fun hne he => hne (IMatch.ext he.1 he.2)
  · exact List.sorted_insertionSort _ _

/-! ### C1: the search contract of `fetch` -/

/-- The push-loop of `fetchKeybindingItems` is filter-then-map. -/
theorem foldl_push_filter {α β : Type} (p : α → Bool) (f : α → β) :
    ∀ (l : List α) (acc : List β),
      l.foldl (fun res a => if p a then res ++ [f a] else res) acc =
        acc ++ (l.filter p).map f := by
  intro l
  induction l with
  | nil => intro acc; simp
  | cons a rest ih =>
    intro acc
    by_cases hp : p a = true <;> simp [hp, ih, List.filter_cons]

/-- `fetchKeybindingItems` returns exactly the matching items, in stored
order, annotated with their computed matches. -/
theorem fetchKeybindingItems_eq (ml : ModifierLabels) (items : List IKeybindingItem)
    (q : String) :
    KeybindingsEditorModel.fetchKeybindingItems ml items q =
      (items.filter fun it =>
          (KeybindingItemMatches.compute ml it q (KeybindingsEditorModel.wordsOf q)
            (KeybindingsEditorModel.keybindingWordsOf q)).hasAny).map
        fun it =>
          KeybindingsEditorModel.entryOf it
            (KeybindingItemMatches.compute ml it q (KeybindingsEditorModel.wordsOf q)
              (KeybindingsEditorModel.keybindingWordsOf q)) := by
  unfold KeybindingsEditorModel.fetchKeybindingItems
  exact foldl_push_filter _ _ items []

/-- C1: after trimming, an empty query returns one unannotated result per
stored entry in stored order (all six match fields absent); a non-empty
query returns exactly the entries with at least one non-null field match,
in stored order (no re-ranking), each annotated with its computed
matches. -/
theorem fetch_spec (ml : ModifierLabels) (items : List IKeybindingItem) (q : String) :
    (jsTrim q = "" →
      KeybindingsEditorModel.fetch ml items q =
        items.map KeybindingsEditorModel.plainEntryOf ∧
      (KeybindingsEditorModel.fetch ml items q).map (fun e => e.keybindingItem) = items ∧
      ∀ e ∈ KeybindingsEditorModel.fetch ml items q,
        e.commandIdMatches = none ∧ e.commandLabelMatches = none ∧
        e.commandDefaultLabelMatches = none ∧ e.sourceMatches = none ∧
        e.whenMatches = none ∧ e.keybindingMatches = none) ∧
    (jsTrim q ≠ "" →
      KeybindingsEditorModel.fetch ml items q =
        (items.filter fun it =>
            (KeybindingItemMatches.compute ml it (jsTrim q)
              (KeybindingsEditorModel.wordsOf (jsTrim q))
              (KeybindingsEditorModel.keybindingWordsOf (jsTrim q))).hasAny).map
          (fun it =>
            KeybindingsEditorModel.entryOf it
              (KeybindingItemMatches.compute ml it (jsTrim q)
                (KeybindingsEditorModel.wordsOf (jsTrim q))
                (KeybindingsEditorModel.keybindingWordsOf (jsTrim q)))) ∧
      ∀ e ∈ KeybindingsEditorModel.fetch ml items q,
        (e.commandIdMatches.isSome || e.commandLabelMatches.isSome ||
          e.commandDefaultLabelMatches.isSome || e.sourceMatches.isSome ||
          e.whenMatches.isSome || e.keybindingMatches.isSome) = true) := by
  constructor
  · intro h
    have hfetch : KeybindingsEditorModel.fetch ml items q =
        items.map KeybindingsEditorModel.plainEntryOf := by
      unfold KeybindingsEditorModel.fetch
      rw [h]
      simp
    refine ⟨hfetch, ?_, ?_⟩
    · rw [hfetch, List.map_map]
      exact List.map_id _ ▸ List.map_congr_left fun a _ => rfl
    · intro e he
      rw [hfetch] at he
      obtain ⟨item, _, rfl⟩ := List.mem_map.mp he
      exact ⟨rfl, rfl, rfl, rfl, rfl, rfl⟩
  · intro h
    have hfetch : KeybindingsEditorModel.fetch ml items q =
        KeybindingsEditorModel.fetchKeybindingItems ml items (jsTrim q) := by
      unfold KeybindingsEditorModel.fetch
      simp [h]
    rw [hfetch, fetchKeybindingItems_eq]
    refine ⟨rfl, ?_⟩
    intro e he
    obtain ⟨item, hitem, rfl⟩ := List.mem_map.mp he
    have hp := (List.mem_filter.mp hitem).2
    simpa [KeybindingsEditorModel.entryOf, KeybindingItemMatches.Result.hasAny] using hp

/-- Witness for C1: trimming "  " empties the query, returning the lone
stored entry unannotated; the non-empty query "undo" only returns entries
with a non-null field match. -/
theorem fetch_spec_witness :
    KeybindingsEditorModel.fetch mlMac [undoItem] "  " =
      [undoItem].map KeybindingsEditorModel.plainEntryOf ∧
    ∀ e ∈ KeybindingsEditorModel.fetch mlMac [undoItem] "undo",
      (e.commandIdMatches.isSome || e.commandLabelMatches.isSome ||
        e.commandDefaultLabelMatches.isSome || e.sourceMatches.isSome ||
        e.whenMatches.isSome || e.keybindingMatches.isSome) = true :=
  ⟨((fetch_spec mlMac [undoItem] "  ").1 (by decide)).1,
    ((fetch_spec mlMac [undoItem] "undo").2 (by decide)).2⟩

/-! ### C2: the all-words rule of the key-combination matcher -/

/-- The boolean result of `matchPart` is the disjunction of the five
checks, independently of the accumulated flag state. -/
theorem matchPart_fst (ml : ModifierLabels) (part : Option KeybindingPart)
    (m : KeybindingMatch) (word : String) :
    (KeybindingItemMatches.matchPart ml part m word).1 = wordMatchesPart ml part word := by
  unfold KeybindingItemMatches.matchPart wordMatchesPart
  cases h1 : KeybindingItemMatches.matchesMetaModifier ml part word <;>
  cases h2 : KeybindingItemMatches.matchesCtrlModifier ml part word <;>
  cases h3 : KeybindingItemMatches.matchesShiftModifier ml part word <;>
  cases h4 : KeybindingItemMatches.matchesAltModifier ml part word <;>
  cases h5 : KeybindingItemMatches.matchesKeyCode part word <;>
  simp [h1, h2, h3, h4, h5]

/-- One loop step extends the matched-word list by one exactly when the
word matched either part. -/
theorem keybindingStep_fst_length (ml : ModifierLabels) (kb : ResolvedKeybinding)
    (acc : List String × KeybindingMatch × KeybindingMatch) (w : String) :
    (KeybindingItemMatches.keybindingStep ml kb acc w).1.length =
      (if wordMatchesPart ml kb.firstPart w || wordMatchesPart ml kb.chordPart w
       then acc.1.length + 1 else acc.1.length) := by
  obtain ⟨mw, fm, cm⟩ := acc
  unfold KeybindingItemMatches.keybindingStep
  rcases hfp : KeybindingItemMatches.matchPart ml kb.firstPart fm w with ⟨b1, fm'⟩
  rcases hcp : KeybindingItemMatches.matchPart ml kb.chordPart cm w with ⟨b2, cm'⟩
  have hb1 : b1 = wordMatchesPart ml kb.firstPart w := by
    rw [← matchPart_fst ml kb.firstPart fm w, hfp]
  have hb2 : b2 = wordMatchesPart ml kb.chordPart w := by
    rw [← matchPart_fst ml kb.chordPart cm w, hcp]
  subst hb1
  subst hb2
  cases h : wordMatchesPart ml kb.firstPart w || wordMatchesPart ml kb.chordPart w <;>
    simp [hfp, hcp, h]

/-- The word loop records at most one matched word per word, and strictly
fewer when some word matches neither part. -/
theorem keybinding_fold_count (ml : ModifierLabels) (kb : ResolvedKeybinding) :
    ∀ (words : List String) (acc : List String × KeybindingMatch × KeybindingMatch),
      ((words.foldl (KeybindingItemMatches.keybindingStep ml kb) acc).1).length ≤
        acc.1.length + words.length ∧
      ∀ w ∈ words,
        wordMatchesPart ml kb.firstPart w = false →
        wordMatchesPart ml kb.chordPart w = false →
        ((words.foldl (KeybindingItemMatches.keybindingStep ml kb) acc).1).length <
          acc.1.length + words.length := by
  intro words
  induction words with
  | nil =>
    intro acc
    exact ⟨by simp, by simp⟩
  | cons w ws ih =>
    intro acc
    rw [List.foldl_cons]
    have hstep := keybindingStep_fst_length ml kb acc w
    have hle : (KeybindingItemMatches.keybindingStep ml kb acc w).1.length ≤
        acc.1.length + 1 := by
      rw [hstep]; split <;> omega
    constructor
    · have := (ih (KeybindingItemMatches.keybindingStep ml kb acc w)).1
      simp only [List.length_cons]
      omega
    · intro x hx hf hc
      simp only [List.length_cons]
      rcases List.mem_cons.mp hx with rfl | hx'
      · have heq : (KeybindingItemMatches.keybindingStep ml kb acc x).1.length =
            acc.1.length := by
          rw [hstep, hf, hc]; rfl
        have := (ih (KeybindingItemMatches.keybindingStep ml kb acc x)).1
        omega
      · have := (ih (KeybindingItemMatches.keybindingStep ml kb acc w)).2 x hx' hf hc
        omega

/-- Counterexample to C2: for the chord combination ctrl+z ctrl+c
(Windows-style labels) and the query "Control+Z Control+C", the key-word
"Z Control" (from splitting on '+') matches neither part on any of the
five flags, yet the key-combination match is the full-label fast-path
result rather than none. -/
theorem matchesKeybinding_and_rule_cex :
    ("Z Control" ∈ KeybindingsEditorModel.keybindingWordsOf "Control+Z Control+C" ∧
      wordMatchesPart mlWin kbChordZC.firstPart "Z Control" = false ∧
      wordMatchesPart mlWin kbChordZC.chordPart "Z Control" = false) ∧
    KeybindingItemMatches.matchesKeybinding mlWin kbChordZC "Control+Z Control+C"
        (KeybindingsEditorModel.keybindingWordsOf "Control+Z Control+C") =
      some ⟨⟨true, true, true, true, true⟩, ⟨true, true, true, true, true⟩⟩ := by
  decide

/-- C2 as amended: provided the query does not case-insensitively equal
the combination's full accessible or display label (the fast path), if
any single key-word matches neither the first part nor the chord part on
any of the five flags, the key-combination field match is none, however
many other words matched. -/
theorem matchesKeybinding_and_rule (ml : ModifierLabels) (kb : ResolvedKeybinding)
    (q : String) (words : List String)
    (h1 : Filters.equalsIgnoreCase q kb.ariaLabel = false)
    (h2 : Filters.equalsIgnoreCase q kb.label = false)
    (hw : ∃ w ∈ words, wordMatchesPart ml kb.firstPart w = false ∧
      wordMatchesPart ml kb.chordPart w = false) :
    KeybindingItemMatches.matchesKeybinding ml kb q words = none := by
  unfold KeybindingItemMatches.matchesKeybinding
  rw [h1, h2]
  obtain ⟨w, hwmem, hf, hc⟩ := hw
  have hlt := (keybinding_fold_count ml kb words ([], {}, {})).2 w hwmem hf hc
  rcases hr : words.foldl (KeybindingItemMatches.keybindingStep ml kb) ([], {}, {})
    with ⟨mw, fm, cm⟩
  rw [hr] at hlt
  simp only [List.length_nil, Nat.zero_add] at hlt
  simp [hr, Nat.ne_of_lt hlt]

/-- Witness for C2 (the claim's own instance): the query "ctrl+z" against
a combination bound to ctrl+x matches nothing — the word "z" matches
neither part on any flag even though "ctrl" alone would match. -/
theorem matchesKeybinding_and_rule_witness :
    KeybindingItemMatches.matchesKeybinding mlWin kbCtrlX "ctrl+z"
      (KeybindingsEditorModel.keybindingWordsOf "ctrl+z") = none :=
  matchesKeybinding_and_rule mlWin kbCtrlX "ctrl+z"
    (KeybindingsEditorModel.keybindingWordsOf "ctrl+z") (by decide) (by decide)
    ⟨"z", by decide, by decide, by decide⟩
